import Mathlib

/-!
Shallow embedding of the CSV-upload widget (`MyCsvUploader` in
`src/components/myCsvUploader.tsx`): the row-validation pass inside the
`onDrop` upload handler, the handler's state updates, and the
`downloadTemplate` export. React state updates are modelled as explicit
state passing on a `UState` record; the CSV parsing collaborator
(Papa.parse) is modelled as an input `JsFile → ParseOutcome`; callback
invocations (`validator`, `onUpload`) are recorded in the result so that
"called / not called / called with which argument" is provable.
-/

namespace CsvUpload

/-- One parsed CSV record: a field-name-to-string mapping
(`Record<string, string>` in the source), as an association list. -/
abbrev Row := List (String × String)

/-- `row[name]`: association-list lookup, `none` when the key is absent. -/
def lookupRow (row : Row) (name : String) : Option String :=
  List.lookup name row

/-- The characters removed by JavaScript `String.prototype.trim`
(ASCII whitespace; the exotic Unicode space code points are not modelled). -/
def isJsWhitespace (c : Char) : Bool :=
  c == ' ' || c == '\t' || c == '\n' || c == '\r' || c == '\x0b' || c == '\x0c'

/-- JavaScript `String.prototype.trim`: strip leading and trailing whitespace. -/
def jsTrim (s : String) : String :=
  ⟨((s.data.dropWhile isJsWhitespace).reverse.dropWhile isJsWhitespace).reverse⟩

/-- JavaScript falsiness of a `string | undefined` value:
`!val` is true exactly when the value is `undefined` or the empty string. -/
def jsFalsy : Option String → Bool
  | none => true
  | some s => s == ""

/-- `ColumnConfig` from the source: column name, required flag, and the
optional per-value `validate` function. -/
structure ColumnRule where
  name : String
  required : Bool
  validate : Option (String → Bool)

/-- The message pushed for a missing required field at zero-based row
index `idx`: `Row <idx+2>: Missing required field "<name>".` -/
def missingMsg (idx : Nat) (name : String) : String :=
  "Row " ++ toString (idx + 2) ++ ": Missing required field \"" ++ name ++ "\"."

/-- The message pushed for an invalid present value at zero-based row
index `idx`: `Row <idx+2>: Invalid value in "<name>".` -/
def invalidMsg (idx : Nat) (name : String) : String :=
  "Row " ++ toString (idx + 2) ++ ": Invalid value in \"" ++ name ++ "\"."

/-- The body of the `columnConfigs.forEach((col) => ...)` loop for one
column: `val = row[col.name]?.trim()`; push the missing-field message when
`col.required && !val`; push the invalid-value message when
`val && col.validate && !col.validate(val)`; the row stays valid only if
neither branch fired. Returns (messages pushed for this column, still valid). -/
def checkCol (idx : Nat) (row : Row) (col : ColumnRule) : List String × Bool :=
  let val := Option.map jsTrim (lookupRow row col.name)
  let missing := col.required && jsFalsy val
  let bad := !(jsFalsy val) &&
    (match col.validate, val with
     | some f, some v => !(f v)
     | _, _ => false)
  ((if missing then [missingMsg idx col.name] else []) ++
     (if bad then [invalidMsg idx col.name] else []),
   !(missing || bad))

/-- The whole `forEach` over `columnConfigs` for one row: messages are
pushed in column-list order and `valid` is the conjunction of the per-column
outcomes. -/
def validateRow (idx : Nat) (row : Row) : List ColumnRule → List String × Bool
  | [] => ([], true)
  | col :: rest =>
    let c := checkCol idx row col
    let r := validateRow idx row rest
    (c.1 ++ r.1, c.2 && r.2)

/-- `data.filter((row, index) => ...)` with the `allErrors` side channel:
rows are visited in order with zero-based indices starting at `idx`; each
row's messages are appended to the collected list and the row is kept
exactly when it stayed valid. Returns (`allErrors`, `validated`). -/
def validatePass (configs : List ColumnRule) : Nat → List Row → List String × List Row
  | _, [] => ([], [])
  | idx, row :: rest =>
    let r := validateRow idx row configs
    let rs := validatePass configs (idx + 1) rest
    (r.1 ++ rs.1, if r.2 then row :: rs.2 else rs.2)

/-- The two mutually exclusive results of one parse attempt: a reported
error list, or a row set handed to `onUpload`. -/
inductive Outcome where
  | errors (msgs : List String)
  | upload (rows : List Row)
deriving DecidableEq, Repr

/-- The reported error list of an outcome. -/
def outcomeErrors : Outcome → List String
  | .errors msgs => msgs
  | .upload _ => []

/-- The accepted row set of an outcome. -/
def outcomeAccepted : Outcome → List Row
  | .errors _ => []
  | .upload rows => rows

/-- Lines 111–124 of the `complete` callback: if `allErrors.length > 0`
report the collected list; otherwise run the caller's batch `validator`
once on `validated`; a truthy (non-null, non-empty) return becomes the sole
error, otherwise `validated` is uploaded. The second component records the
argument of every `validator` invocation. -/
def processParsed (configs : List ColumnRule) (validator : List Row → Option String)
    (data : List Row) : Outcome × List (List Row) :=
  let p := validatePass configs 0 data
  if p.1.length > 0 then
    (.errors p.1, [])
  else
    match validator p.2 with
    | some s => if s == "" then (.upload p.2, [p.2]) else (.errors [s], [p.2])
    | none => (.upload p.2, [p.2])

/-- The selected file: name and byte size. -/
structure JsFile where
  name : String
  size : Nat
deriving DecidableEq, Repr

/-- Result of the parsing collaborator (Papa.parse): either the parsed rows
(`complete`) or an error message (`error`). -/
inductive ParseOutcome where
  | ok (data : List Row)
  | failed (message : String)

/-- The component state touched by `onDrop`. `uploadedFileSize` keeps the
raw byte count; the source stores it formatted in MB with four decimals,
which is display-only formatting. -/
structure UState where
  errors : List String
  fileError : Option String
  parsedData : List Row
  uploadedFileName : Option String
  uploadedFileSize : Option Nat
deriving DecidableEq, Repr

/-- `maxSize = maxSizeMB ? maxSizeMB * 1024 * 1024 : null` — a falsy
(absent or zero) `maxSizeMB` yields `null`. `maxSizeMB` is a `number` in
the source, modelled as a natural count of megabytes. -/
def jsMaxSize : Option Nat → Option Nat
  | some m => if m == 0 then none else some (m * 1024 * 1024)
  | none => none

/-- `File exceeds maximum size of ${(maxSize / 1024 / 1024).toFixed(2)}MB.`
`maxSize` is `maxSizeMB * 1024 * 1024`, so the division is exact and
`toFixed(2)` appends `.00`. -/
def sizeMsg (maxSize : Nat) : String :=
  "File exceeds maximum size of " ++ toString (maxSize / 1024 / 1024) ++ ".00MB."

/-- The observable result of one drop event: the new component state, the
argument `onUpload` was invoked with (`none` = not invoked), and the
arguments of every `validator` invocation. -/
structure DropResult where
  state : UState
  uploaded : Option (List Row)
  validatorCalls : List (List Row)
deriving DecidableEq, Repr

/-- The `complete`/`error` handling of `Papa.parse` (lines 85–128):
a parse failure sets `fileError`; otherwise the parsed rows go through
`processParsed`, whose error outcome sets `errors` and whose upload outcome
sets `parsedData`, the file name and size, and invokes `onUpload`. -/
def handleParsed (configs : List ColumnRule) (validator : List Row → Option String)
    (file : JsFile) (st0 : UState) (po : ParseOutcome) : DropResult :=
  match po with
  | .failed msg =>
    ⟨{ st0 with fileError := some ("Parsing error: " ++ msg) }, none, []⟩
  | .ok data =>
    let pr := processParsed configs validator data
    match pr.1 with
    | .errors msgs => ⟨{ st0 with errors := msgs }, none, pr.2⟩
    | .upload rows =>
      ⟨{ st0 with parsedData := rows,
                  uploadedFileName := some file.name,
                  uploadedFileSize := some file.size }, some rows, pr.2⟩

/-- The `onDrop` handler (lines 68–130): clear both error surfaces, take
the first accepted file (return if none), reject a file larger than
`maxSize` before parsing, otherwise hand the file to the parser and process
its outcome. -/
def onDrop (maxSizeMB : Option Nat) (configs : List ColumnRule)
    (validator : List Row → Option String) (st : UState)
    (acceptedFiles : List JsFile) (parse : JsFile → ParseOutcome) : DropResult :=
  let st0 : UState := { st with errors := [], fileError := none }
  match acceptedFiles.head? with
  | none => ⟨st0, none, []⟩
  | some file =>
    match jsMaxSize maxSizeMB with
    | some maxSize =>
      if file.size > maxSize then
        ⟨{ st0 with fileError := some (sizeMsg maxSize) }, none, []⟩
      else
        handleParsed configs validator file st0 (parse file)
    | none => handleParsed configs validator file st0 (parse file)

/-- `downloadTemplate` (lines 138–148): the download is named
`template.csv` and its content is the comma-joined column names followed by
a newline. The source ships the content as a
`data:text/csv;charset=utf-8,...` URI through `encodeURI`; the browser
percent-decodes the payload when saving, so the saved content is the
payload itself, which is what we model (a literal `%` in a column name,
which `encodeURI` leaves untouched, is the only character this round trip
would alter). -/
def downloadTemplate (configs : List ColumnRule) : String × String :=
  let headerRow := String.intercalate "," (configs.map ColumnRule.name)
  ("template.csv", headerRow ++ "\n")

/-- A row passes all per-row rules when every column check leaves it valid. -/
def rowPasses (configs : List ColumnRule) (idx : Nat) (row : Row) : Bool :=
  configs.all (fun c => (checkCol idx row c).2)

/-- The rows that passed all per-row rules, in input order, each judged at
its zero-based index. -/
def acceptedOf (configs : List ColumnRule) (data : List Row) : List Row :=
  ((data.enum).filter (fun p => rowPasses configs p.1 p.2)).map Prod.snd

/-- The digits-only check `v => /^\d+$/.test(v)` from the spec scenario. -/
def digitsOnly (s : String) : Bool :=
  !(s == "") && s.data.all Char.isDigit

end CsvUpload

namespace CsvUpload

/-! ### Shared structural lemmas about the validation pass -/

theorem validateRow_fst (idx : Nat) (row : Row) (cs : List ColumnRule) :
    (validateRow idx row cs).1 = (cs.map (fun c => (checkCol idx row c).1)).flatten := by
  induction cs with
  | nil => rfl
  | cons c rest ih => simp [validateRow, ih]

theorem validateRow_snd (idx : Nat) (row : Row) (cs : List ColumnRule) :
    (validateRow idx row cs).2 = cs.all (fun c => (checkCol idx row c).2) := by
  induction cs with
  | nil => rfl
  | cons c rest ih => simp [validateRow, ih]

theorem validatePass_fst (cs : List ColumnRule) (i : Nat) (data : List Row) :
    (validatePass cs i data).1
      = ((data.enumFrom i).map (fun p => (validateRow p.1 p.2 cs).1)).flatten := by
  induction data generalizing i with
  | nil => rfl
  | cons row rest ih =>
    simp only [validatePass, List.enumFrom, List.map_cons, List.flatten_cons, ih]

theorem validatePass_snd (cs : List ColumnRule) (i : Nat) (data : List Row) :
    (validatePass cs i data).2
      = ((data.enumFrom i).filter (fun p => rowPasses cs p.1 p.2)).map Prod.snd := by
  induction data generalizing i with
  | nil => rfl
  | cons row rest ih =>
    simp only [validatePass, List.enumFrom, List.filter_cons]
    have hrp : rowPasses cs i row = (validateRow i row cs).2 := by
      rw [validateRow_snd, rowPasses]
    cases hv : (validateRow i row cs).2 <;>
      simp [hrp, hv, ih]

theorem validatePass_accepted (cs : List ColumnRule) (data : List Row) :
    (validatePass cs 0 data).2 = acceptedOf cs data := by
  rw [validatePass_snd, acceptedOf, List.enum]

theorem processParsed_errors (cs : List ColumnRule) (v : List Row → Option String)
    (data : List Row) (h : (validatePass cs 0 data).1 ≠ []) :
    processParsed cs v data = (.errors (validatePass cs 0 data).1, []) := by
  have hl : (validatePass cs 0 data).1.length > 0 := List.length_pos.mpr h
  simp [processParsed, hl]

theorem processParsed_calls_of_clean (cs : List ColumnRule) (v : List Row → Option String)
    (data : List Row) (h : (validatePass cs 0 data).1 = []) :
    (processParsed cs v data).2 = [(validatePass cs 0 data).2] := by
  simp only [processParsed, h]
  cases hv : v (validatePass cs 0 data).2 with
  | none => simp
  | some s => by_cases hs : s == "" <;> simp [hs]

theorem processParsed_batchErr (cs : List ColumnRule) (v : List Row → Option String)
    (data : List Row) (s : String) (h : (validatePass cs 0 data).1 = [])
    (hv : v (validatePass cs 0 data).2 = some s) (hs : s ≠ "") :
    processParsed cs v data = (.errors [s], [(validatePass cs 0 data).2]) := by
  have hs' : (s == "") = false := beq_eq_false_iff_ne.mpr hs
  simp [processParsed, h, hv, hs']

theorem processParsed_upload (cs : List ColumnRule) (v : List Row → Option String)
    (data : List Row) (h : (validatePass cs 0 data).1 = [])
    (hv : v (validatePass cs 0 data).2 = none ∨ v (validatePass cs 0 data).2 = some "") :
    processParsed cs v data = (.upload (validatePass cs 0 data).2,
      [(validatePass cs 0 data).2]) := by
  rcases hv with hv | hv <;> simp [processParsed, h, hv]

theorem onDrop_parsed (maxSizeMB : Option Nat) (cs : List ColumnRule)
    (v : List Row → Option String) (st : UState) (file : JsFile)
    (parse : JsFile → ParseOutcome)
    (hsize : ∀ m, jsMaxSize maxSizeMB = some m → file.size ≤ m) :
    onDrop maxSizeMB cs v st [file] parse
      = handleParsed cs v file { st with errors := [], fileError := none } (parse file) := by
  unfold onDrop
  cases hms : jsMaxSize maxSizeMB with
  | none => rfl
  | some m =>
    have hle := hsize m hms
    simp [List.head?, Nat.not_lt.mpr hle]

end CsvUpload

namespace CsvUpload

/-! ### Claims -/

/-- C1: if the per-row pass collects at least one error, the outcome is
exactly the full collected error list, the accepted set is empty, and
`onUpload` is not invoked; a non-empty error list and a non-empty accepted
set never occur together for one parse attempt. -/
theorem claim_C1 (configs : List ColumnRule) (validator : List Row → Option String)
    (st : UState) (file : JsFile) (data : List Row)
    (h : (validatePass configs 0 data).1 ≠ []) :
    processParsed configs validator data
        = (.errors (validatePass configs 0 data).1, []) ∧
    outcomeAccepted (processParsed configs validator data).1 = [] ∧
    (onDrop none configs validator st [file] (fun _ => .ok data)).uploaded = none ∧
    (∀ (cs : List ColumnRule) (v : List Row → Option String) (d : List Row),
        outcomeErrors (processParsed cs v d).1 = [] ∨
        outcomeAccepted (processParsed cs v d).1 = []) := by
  have hp := processParsed_errors configs validator data h
  refine ⟨hp, by rw [hp]; rfl, ?_, ?_⟩
  · rw [onDrop_parsed none configs validator st file _ (by intro m hm; cases hm)]
    simp [handleParsed, hp]
  · intro cs v d
    by_cases hc : (validatePass cs 0 d).1 = []
    · rcases hv : v (validatePass cs 0 d).2 with _ | s
      · left; rw [processParsed_upload cs v d hc (Or.inl hv)]; rfl
      · by_cases hs : s = ""
        · left; rw [processParsed_upload cs v d hc (Or.inr (hs ▸ hv))]; rfl
        · right; rw [processParsed_batchErr cs v d s hc hv hs]; rfl
    · right
      rw [processParsed_errors cs v d hc]; rfl

/-- C1 witness: with rules `[{name:"id",required:true}]` and rows
`[{id:"1"},{id:""}]` the first row individually passes every rule, yet the
outcome is the error list and the accepted set is empty. -/
theorem claim_C1_witness :
    processParsed [⟨"id", true, none⟩] (fun _ => none) [[("id", "1")], [("id", "")]]
        = (.errors (validatePass [⟨"id", true, none⟩] 0
            [[("id", "1")], [("id", "")]]).1, []) ∧
    (validatePass [⟨"id", true, none⟩] 0 [[("id", "1")], [("id", "")]]).1
        = ["Row 3: Missing required field \"id\"."] ∧
    rowPasses [⟨"id", true, none⟩] 0 [("id", "1")] = true :=
  ⟨(claim_C1 [⟨"id", true, none⟩] (fun _ => none) ⟨[], none, [], none, none⟩
      ⟨"f.csv", 7⟩ [[("id", "1")], [("id", "")]] (by decide)).1,
   by decide, by decide⟩

/-- C2: a required rule whose value is absent or trims to empty emits
exactly the single message `Row <n+2>: Missing required field "<name>".`
for that (row, rule) pair and marks the row invalid; in the spec scenario
the sole error is `Row 3: Missing required field "id".` and the accepted
set is empty. -/
theorem claim_C2 :
    (∀ (n : Nat) (row : Row) (col : ColumnRule),
        col.required = true →
        jsFalsy (Option.map jsTrim (lookupRow row col.name)) = true →
        checkCol n row col = ([missingMsg n col.name], false)) ∧
    (∀ (n : Nat) (row : Row) (configs : List ColumnRule) (col : ColumnRule),
        col ∈ configs → (checkCol n row col).2 = false →
        (validateRow n row configs).2 = false) ∧
    missingMsg 1 "id" = "Row 3: Missing required field \"id\"." ∧
    processParsed [⟨"id", true, none⟩] (fun _ => none) [[("id", "1")], [("id", "")]]
        = (.errors ["Row 3: Missing required field \"id\"."], []) := by
  refine ⟨?_, ?_, by decide, by decide⟩
  · intro n row col hreq hval
    simp [checkCol, hreq, hval]
  · intro n row configs col hmem hcol
    rw [validateRow_snd]
    cases hall : configs.all (fun c => (checkCol n row c).2) with
    | false => rfl
    | true =>
      have := List.all_eq_true.mp hall col hmem
      simp only [hcol] at this
      cases this

/-- C2 witness: the required rule `id` on the row `{id:""}` at index 1
emits exactly the missing-field message and invalidates the row. -/
theorem claim_C2_witness :
    checkCol 1 [("id", "")] ⟨"id", true, none⟩ = ([missingMsg 1 "id"], false) :=
  claim_C2.1 1 [("id", "")] ⟨"id", true, none⟩ (by decide) (by decide)

/-- C3: a present (non-empty after trimming) value on which a supplied
`validate` function returns false emits the message
`Row <n+2>: Invalid value in "<name>".` for that pair and marks the row
invalid; in the spec scenario with the non-required digits-only rule `age`
and the row `{age:"abc"}`, the sole error is `Row 2: Invalid value in
"age".` and the accepted set is empty. -/
theorem claim_C3 :
    (∀ (n : Nat) (row : Row) (col : ColumnRule) (f : String → Bool) (v : String),
        col.validate = some f →
        lookupRow row col.name = some v →
        jsTrim v ≠ "" →
        f (jsTrim v) = false →
        checkCol n row col = ([invalidMsg n col.name], false)) ∧
    invalidMsg 0 "age" = "Row 2: Invalid value in \"age\"." ∧
    processParsed [⟨"age", false, some digitsOnly⟩] (fun _ => none) [[("age", "abc")]]
        = (.errors ["Row 2: Invalid value in \"age\"."], []) := by
  refine ⟨?_, by decide, by decide⟩
  intro n row col f v hvalidate hlook hne hf
  have hne' : (jsTrim v == "") = false := beq_eq_false_iff_ne.mpr hne
  simp [checkCol, hvalidate, hlook, hne', jsFalsy, hf]

/-- C3 witness: the digits-only rule `age` on the row `{age:"abc"}` at
index 0 emits exactly the invalid-value message and invalidates the row. -/
theorem claim_C3_witness :
    checkCol 0 [("age", "abc")] ⟨"age", false, some digitsOnly⟩
        = ([invalidMsg 0 "age"], false) :=
  claim_C3.1 0 [("age", "abc")] ⟨"age", false, some digitsOnly⟩ digitsOnly "abc"
    rfl (by decide) (by decide) (by decide)

end CsvUpload

namespace CsvUpload

/-- C4: the batch `validator` runs only when zero per-row errors were
collected, and then exactly once, on the retained row set; a non-empty
string it returns becomes the sole reported error and the accepted set is
empty. -/
theorem claim_C4 (configs : List ColumnRule) (validator : List Row → Option String)
    (data : List Row) :
    ((validatePass configs 0 data).1 ≠ [] →
        (processParsed configs validator data).2 = []) ∧
    ((validatePass configs 0 data).1 = [] →
        (processParsed configs validator data).2
          = [(validatePass configs 0 data).2]) ∧
    (∀ s : String, (validatePass configs 0 data).1 = [] →
        validator (validatePass configs 0 data).2 = some s → s ≠ "" →
        processParsed configs validator data
          = (.errors [s], [(validatePass configs 0 data).2]) ∧
        outcomeAccepted (processParsed configs validator data).1 = []) := by
  refine ⟨?_, ?_, ?_⟩
  · intro h
    rw [processParsed_errors configs validator data h]
  · intro h
    exact processParsed_calls_of_clean configs validator data h
  · intro s h hv hs
    have hb := processParsed_batchErr configs validator data s h hv hs
    exact ⟨hb, by rw [hb]; rfl⟩

/-- C4 witness: with no per-row rules and a batch validator rejecting the
(empty) batch with "batch bad", that message is the sole error, the
validator was called exactly once on the retained set, and the accepted
set is empty. -/
theorem claim_C4_witness :
    processParsed [] (fun _ => some "batch bad") ([] : List Row)
        = (.errors ["batch bad"], [[]]) ∧
    outcomeAccepted (processParsed [] (fun _ => some "batch bad")
        ([] : List Row)).1 = [] :=
  (claim_C4 [] (fun _ => some "batch bad") []).2.2 "batch bad" rfl rfl (by decide)

/-- C5: when zero per-row errors are collected and the batch check returns
null or the empty string, the accepted set is exactly the rows that passed
all per-row rules (judged at their zero-based input index), the error list
stays empty, and `onUpload` is invoked with exactly that set. -/
theorem claim_C5 (configs : List ColumnRule) (validator : List Row → Option String)
    (maxSizeMB : Option Nat) (st : UState) (file : JsFile) (data : List Row)
    (h1 : (validatePass configs 0 data).1 = [])
    (h2 : validator (validatePass configs 0 data).2 = none ∨
          validator (validatePass configs 0 data).2 = some "")
    (hsize : ∀ m, jsMaxSize maxSizeMB = some m → file.size ≤ m) :
    processParsed configs validator data
        = (.upload (acceptedOf configs data), [acceptedOf configs data]) ∧
    (onDrop maxSizeMB configs validator st [file] (fun _ => .ok data)).uploaded
        = some (acceptedOf configs data) ∧
    (onDrop maxSizeMB configs validator st [file] (fun _ => .ok data)).state.errors
        = [] ∧
    (onDrop maxSizeMB configs validator st [file] (fun _ => .ok data)).state.parsedData
        = acceptedOf configs data := by
  have hacc := validatePass_accepted configs data
  have hup := processParsed_upload configs validator data h1 h2
  rw [hacc] at hup
  have hod : onDrop maxSizeMB configs validator st [file] (fun _ => .ok data)
      = handleParsed configs validator file
          { st with errors := [], fileError := none } (.ok data) :=
    onDrop_parsed maxSizeMB configs validator st file _ hsize
  refine ⟨hup, ?_, ?_, ?_⟩ <;> rw [hod] <;> simp [handleParsed, hup]

/-- C5 witness: one required rule `id`, one clean row, a null batch check
and a 1 MB limit not exceeded: `onUpload` receives exactly the accepted
set, which is the single row. -/
theorem claim_C5_witness :
    (onDrop (some 1) [⟨"id", true, none⟩] (fun _ => none)
        ⟨["old"], some "old", [], none, none⟩ [⟨"a.csv", 10⟩]
        (fun _ => .ok [[("id", "1")]])).uploaded
      = some (acceptedOf [⟨"id", true, none⟩] [[("id", "1")]]) ∧
    acceptedOf [⟨"id", true, none⟩] [[("id", "1")]] = [[("id", "1")]] :=
  ⟨(claim_C5 [⟨"id", true, none⟩] (fun _ => none) (some 1)
      ⟨["old"], some "old", [], none, none⟩ ⟨"a.csv", 10⟩ [[("id", "1")]]
      (by decide) (Or.inl rfl)
      (by intro m hm; show (10 : Nat) ≤ m; simp [jsMaxSize] at hm; omega)).2.1,
   by decide⟩

/-- C6: errors are collected first by row in input order and, within one
row, by the position of the rule in the rule list: the collected list is
the in-order concatenation of the per-row lists, each of which is the
in-order concatenation of the per-rule lists. -/
theorem claim_C6 (configs : List ColumnRule) (data : List Row) (i : Nat) (row : Row) :
    (validatePass configs 0 data).1
        = ((data.enum).map (fun p => (validateRow p.1 p.2 configs).1)).flatten ∧
    (validateRow i row configs).1
        = ((configs.map (fun c => (checkCol i row c).1)).flatten) := by
  exact ⟨by rw [validatePass_fst, List.enum], validateRow_fst i row configs⟩

/-- C7: the template download is named `template.csv` and its content is
exactly one header line: the configured column names joined by commas with
no quoting or escaping, as the `id`/`age` scenario and a name containing a
comma and quotes show. -/
theorem claim_C7 :
    (∀ configs : List ColumnRule, downloadTemplate configs
        = ("template.csv",
           String.intercalate "," (configs.map ColumnRule.name) ++ "\n")) ∧
    downloadTemplate [⟨"id", true, none⟩, ⟨"age", false, none⟩]
        = ("template.csv", "id,age\n") ∧
    downloadTemplate [⟨"a,\"b\"", true, none⟩] = ("template.csv", "a,\"b\"\n") :=
  ⟨fun _ => rfl, by decide, by decide⟩

end CsvUpload

namespace CsvUpload

/-- After any parse outcome, at most one error surface is set, provided
both were clear going in. -/
theorem handleParsed_surfaces (cs : List ColumnRule) (v : List Row → Option String)
    (file : JsFile) (st0 : UState) (po : ParseOutcome)
    (he : st0.errors = []) (hf : st0.fileError = none) :
    (handleParsed cs v file st0 po).state.errors = [] ∨
    (handleParsed cs v file st0 po).state.fileError = none := by
  cases po with
  | failed msg => left; simpa [handleParsed] using he
  | ok data =>
    cases hpr : (processParsed cs v data).1 with
    | errors msgs => right; simpa [handleParsed, hpr] using hf
    | upload rows => left; simpa [handleParsed, hpr] using he

/-- The error surfaces produced by the parse handling depend on the prior
state only through its own error surfaces. -/
theorem handleParsed_surfaces_congr (cs : List ColumnRule)
    (v : List Row → Option String) (file : JsFile) (po : ParseOutcome)
    (st1 st2 : UState) (he : st1.errors = st2.errors)
    (hf : st1.fileError = st2.fileError) :
    (handleParsed cs v file st1 po).state.errors
        = (handleParsed cs v file st2 po).state.errors ∧
    (handleParsed cs v file st1 po).state.fileError
        = (handleParsed cs v file st2 po).state.fileError := by
  cases po with
  | failed msg => simp [handleParsed, he, hf]
  | ok data =>
    cases hpr : (processParsed cs v data).1 <;> simp [handleParsed, hpr, he, hf]

/-- C8: with a configured positive limit and a file strictly larger than
`maxSizeMB * 1024 * 1024` bytes, the handler only sets the single
file-rejected message: the validation-error list stays empty, no parsing or
row validation happens (the result is the same for every parser), the
validator is never called and nothing is uploaded. -/
theorem claim_C8 (m : Nat) (configs : List ColumnRule)
    (validator : List Row → Option String) (st : UState) (file : JsFile)
    (parse : JsFile → ParseOutcome)
    (hm : 0 < m) (hsz : m * 1024 * 1024 < file.size) :
    onDrop (some m) configs validator st [file] parse
        = ⟨{ st with
              errors := [],
              fileError := some (sizeMsg (m * 1024 * 1024)) }, none, []⟩ ∧
    sizeMsg (m * 1024 * 1024)
        = "File exceeds maximum size of " ++ toString m ++ ".00MB." := by
  constructor
  · have hm0 : (m == 0) = false := beq_eq_false_iff_ne.mpr (Nat.pos_iff_ne_zero.mp hm)
    unfold onDrop
    simp [jsMaxSize, hm0, hsz]
  · have hdiv : m * 1024 * 1024 / 1024 / 1024 = m := by omega
    rw [sizeMsg, hdiv]

/-- C8 witness: a 1 MB limit and a 1048577-byte file: the drop is rejected
with the file-error message alone, before any parsing. -/
theorem claim_C8_witness :
    onDrop (some 1) [] (fun _ => none) ⟨[], none, [], none, none⟩
        [⟨"big.csv", 1048577⟩] (fun _ => .ok [])
      = ⟨⟨[], some (sizeMsg (1 * 1024 * 1024)), [], none, none⟩, none, []⟩ ∧
    sizeMsg (1 * 1024 * 1024)
      = "File exceeds maximum size of " ++ toString 1 ++ ".00MB." :=
  claim_C8 1 [] (fun _ => none) ⟨[], none, [], none, none⟩ ⟨"big.csv", 1048577⟩
    (fun _ => .ok []) (by decide) (by decide)

/-- C9: a supplied `validate` function only ever sees the trimmed value:
the column check depends on the looked-up value only through its trimmed
form, and a raw value `" 42 "` passes a check that accepts exactly `"42"`. -/
theorem claim_C9 :
    (∀ (n : Nat) (col : ColumnRule) (row₁ row₂ : Row) (v₁ v₂ : String),
        lookupRow row₁ col.name = some v₁ →
        lookupRow row₂ col.name = some v₂ →
        jsTrim v₁ = jsTrim v₂ →
        checkCol n row₁ col = checkCol n row₂ col) ∧
    checkCol 0 [("age", " 42 ")] ⟨"age", false, some (fun s => s == "42")⟩
        = ([], true) := by
  refine ⟨?_, by decide⟩
  intro n col row₁ row₂ v₁ v₂ h1 h2 htrim
  simp [checkCol, h1, h2, htrim]

/-- C9 witness: the checks of the rows `{age:" 42 "}` and `{age:"42"}`
coincide because the values trim to the same string. -/
theorem claim_C9_witness :
    checkCol 0 [("age", " 42 ")] ⟨"age", false, some (fun s => s == "42")⟩
        = checkCol 0 [("age", "42")] ⟨"age", false, some (fun s => s == "42")⟩ :=
  claim_C9.1 0 ⟨"age", false, some (fun s => s == "42")⟩
    [("age", " 42 ")] [("age", "42")] " 42 " "42" rfl rfl (by decide)

/-- C10: a drop event first clears both error surfaces, so afterwards at
most one of the validation-error list and the file-error message is set,
and which one — and with what content — does not depend on the error
surfaces the state held before the drop. -/
theorem claim_C10 (maxSizeMB : Option Nat) (configs : List ColumnRule)
    (validator : List Row → Option String) (st : UState)
    (files : List JsFile) (parse : JsFile → ParseOutcome) :
    ((onDrop maxSizeMB configs validator st files parse).state.errors = [] ∨
     (onDrop maxSizeMB configs validator st files parse).state.fileError = none) ∧
    (∀ st' : UState,
        (onDrop maxSizeMB configs validator st files parse).state.errors
          = (onDrop maxSizeMB configs validator st' files parse).state.errors ∧
        (onDrop maxSizeMB configs validator st files parse).state.fileError
          = (onDrop maxSizeMB configs validator st' files parse).state.fileError) := by
  cases files with
  | nil => exact ⟨Or.inl rfl, fun st' => ⟨rfl, rfl⟩⟩
  | cons f fs =>
    cases hms : jsMaxSize maxSizeMB with
    | none =>
      have h1 : ∀ s : UState, onDrop maxSizeMB configs validator s (f :: fs) parse
          = handleParsed configs validator f
              { s with errors := [], fileError := none } (parse f) := by
        intro s; unfold onDrop; simp [hms]
      refine ⟨?_, ?_⟩
      · rw [h1 st]
        exact handleParsed_surfaces _ _ _ _ _ rfl rfl
      · intro st'
        rw [h1 st, h1 st']
        exact handleParsed_surfaces_congr _ _ _ _ _ _ rfl rfl
    | some maxSize =>
      by_cases hgt : f.size > maxSize
      · have h1 : ∀ s : UState, onDrop maxSizeMB configs validator s (f :: fs) parse
            = ⟨{ s with errors := [], fileError := some (sizeMsg maxSize) },
               none, []⟩ := by
          intro s; unfold onDrop; simp [hms, hgt]
        refine ⟨?_, ?_⟩
        · rw [h1 st]; left; rfl
        · intro st'; rw [h1 st, h1 st']; exact ⟨rfl, rfl⟩
      · have h1 : ∀ s : UState, onDrop maxSizeMB configs validator s (f :: fs) parse
            = handleParsed configs validator f
                { s with errors := [], fileError := none } (parse f) := by
          intro s; unfold onDrop; simp [hms, hgt]
        refine ⟨?_, ?_⟩
        · rw [h1 st]
          exact handleParsed_surfaces _ _ _ _ _ rfl rfl
        · intro st'
          rw [h1 st, h1 st']
          exact handleParsed_surfaces_congr _ _ _ _ _ _ rfl rfl

end CsvUpload
